import Mathlib

/-!
Verification of the connection-handling and message-framing core of
sailnavsim-core (src/src/NetServer.c) against its natural-language
specification.

The C sources are shallowly embedded as executable Lean definitions:

* C `double` values are modelled as exact rationals (`ℚ`); the range
  comparisons performed by the code are order comparisons that agree with
  the rational order on all inputs the claims mention.
* The request codec (`handleMessage`, `getReqType`,
  `areValuesValidForReqType`, `populateWindResponse`,
  `populateOceanResponse`, `populateWaveResponse`) is translated
  function-by-function from NetServer.c.
* The C library functions the codec calls (`strtok_r`, `strtod`,
  `snprintf` with `%f`) are modelled on their documented behaviour for the
  inputs that can occur here (see the doc comments on `strtokAll`,
  `strtod`, `formatF`).
* The per-connection request loop of `netServerThreadMain`
  (NetServer.c lines 183-282) is embedded as the executor `runConnFuel`
  over a connection state holding the valid buffered bytes, the bytes the
  client has sent but the server has not yet read (as a list of
  fragments, modelling arbitrary partial reads), and the end-of-stream
  flag.  Reads are clipped to the free space of the 1024-byte buffer
  exactly as `read(fd, buf + readyBytes, MSG_BUF_SIZE - readyBytes)` is.
  The model reads whenever data is pending (`select` reports readiness as
  soon as unread bytes exist) and models `write` as always writing fully;
  read/write transport failures are outside the model.
-/

namespace NetServer

/-- Model of `MSG_BUF_SIZE` (NetServer.c line 127): the receive buffer
capacity in bytes. -/
def MSG_BUF_SIZE : ℕ := 1024

/-- Model of the `REQ_TYPE_*` constants (NetServer.c lines 41-46) as an
inductive tag. -/
inductive ReqType
  | invalid
  | getWind
  | getWindGust
  | getOceanCurrent
  | getSeaIce
  | getWaveHeight
deriving DecidableEq

/-- Model of `REQ_STR_GET_WIND` (NetServer.c line 48). -/
def REQ_STR_GET_WIND : List Char := "wind".toList

/-- Model of `REQ_STR_GET_WIND_GUST` (NetServer.c line 49). -/
def REQ_STR_GET_WIND_GUST : List Char := "wind_gust".toList

/-- Model of `REQ_STR_GET_OCEAN_CURRENT` (NetServer.c line 50). -/
def REQ_STR_GET_OCEAN_CURRENT : List Char := "ocean_current".toList

/-- Model of `REQ_STR_GET_SEA_ICE` (NetServer.c line 51). -/
def REQ_STR_GET_SEA_ICE : List Char := "sea_ice".toList

/-- Model of `REQ_STR_GET_WAVE_HEIGHT` (NetServer.c line 52). -/
def REQ_STR_GET_WAVE_HEIGHT : List Char := "wave_height".toList

/-- Model of `INVALID_DOUBLE_VALUE` (NetServer.c line 74). -/
def INVALID_DOUBLE_VALUE : ℚ := -999

/-- Model of `getReqType` (NetServer.c lines 449-473).  The C code compares
with `strncmp(keyword, s, strlen(s))`, which is zero exactly when `s` is a
(possibly empty) prefix of the keyword: the comparison stops after
`strlen(s)` bytes, and a keyword shorter than `s` mismatches at its own
terminator.  The five keywords are tried in the source order. -/
def getReqType (s : List Char) : ReqType :=
  if s.isPrefixOf REQ_STR_GET_WIND then ReqType.getWind
  else if s.isPrefixOf REQ_STR_GET_WIND_GUST then ReqType.getWindGust
  else if s.isPrefixOf REQ_STR_GET_OCEAN_CURRENT then ReqType.getOceanCurrent
  else if s.isPrefixOf REQ_STR_GET_SEA_ICE then ReqType.getSeaIce
  else if s.isPrefixOf REQ_STR_GET_WAVE_HEIGHT then ReqType.getWaveHeight
  else ReqType.invalid

/-- Model of repeated `strtok_r(·, ",", ·)` calls (NetServer.c lines 341,
365): the maximal non-empty runs of non-comma characters, in order.
`strtok` skips leading delimiters and never yields an empty token. -/
def strtokAll (s : List Char) : List (List Char) :=
  (s.splitOn ',').filter (fun t => t ≠ [])

/-- Space predicate of `isspace` in the C locale, used by `strtod` to skip
leading whitespace. -/
def isSpaceChar (c : Char) : Bool :=
  c = ' ' || c = '\t' || c = '\n' || c = '\x0b' || c = '\x0c' || c = '\r'

/-- Strip one optional sign character; returns (negative?, rest). -/
def stripSign : List Char → Bool × List Char
  | [] => (false, [])
  | c :: r =>
    if c = '-' then (true, r)
    else if c = '+' then (false, r)
    else (false, c :: r)

/-- Consume a maximal run of decimal digits, returning the accumulated
value, the number of digits consumed, and the rest of the input. -/
def scanDigits : List Char → ℕ → ℕ → ℕ × ℕ × List Char
  | [], acc, n => (acc, n, [])
  | c :: cs, acc, n =>
    if c.isDigit then scanDigits cs (10 * acc + (c.toNat - 48)) (n + 1)
    else (acc, n, c :: cs)

/-- Parse an optional exponent part (`e`/`E`, optional sign, digits),
returning (magnitude, negative?).  An exponent with no digits is not
consumed, as in `strtod`. -/
def parseExpPart (s : List Char) : ℕ × Bool :=
  match s with
  | c :: rest =>
    if c = 'e' || c = 'E' then
      let sg := stripSign rest
      let d := scanDigits sg.2 0 0
      if d.2.1 = 0 then (0, false) else (d.1, sg.1)
    else (0, false)
  | [] => (0, false)

/-- Model of the C library function `strtod` (called at NetServer.c line
376 with a null end pointer), restricted to its decimal forms: optional
whitespace, optional sign, digits with an optional fractional part, and an
optional exponent.  If no digits are found there is no conversion and the
result is zero.  Hexadecimal, infinity and NaN forms are not modelled, and
the value is the exact rational
`± (intPart * 10 ^ fracLen + fracPart) * 10 ^ exp / 10 ^ fracLen`
rather than the nearest IEEE double. -/
def strtod (s : List Char) : ℚ :=
  let s1 := s.dropWhile isSpaceChar
  let sg := stripSign s1
  let ip := scanDigits sg.2 0 0
  let fr :=
    match ip.2.2 with
    | '.' :: r => scanDigits r 0 0
    | l => (0, 0, l)
  if ip.2.1 + fr.2.1 = 0 then 0
  else
    let ex := parseExpPart fr.2.2
    let base : ℕ := ip.1 * 10 ^ fr.2.1 + fr.1
    let num : ℕ := if ex.2 then base else base * 10 ^ ex.1
    let den : ℕ := if ex.2 then 10 ^ (fr.2.1 + ex.1) else 10 ^ fr.2.1
    Rat.divInt (if sg.1 then -(num : ℤ) else (num : ℤ)) (den : ℤ)

/-- Model of `areValuesValidForReqType` (NetServer.c lines 490-507): the
five data commands constrain latitude to [-90, 90] and longitude to
[-180, 180]; all other request types have no restrictions. -/
def areValuesValidForReqType (reqType : ReqType) (lat lon : ℚ) : Bool :=
  match reqType with
  | ReqType.invalid => true
  | _ =>
    decide (-90 ≤ lat) && decide (lat ≤ 90) &&
      decide (-180 ≤ lon) && decide (lon ≤ 180)

/-- Decimal digit character for a digit value below ten. -/
def digitChar (d : ℕ) : Char :=
  if d = 0 then '0' else if d = 1 then '1' else if d = 2 then '2'
  else if d = 3 then '3' else if d = 4 then '4' else if d = 5 then '5'
  else if d = 6 then '6' else if d = 7 then '7' else if d = 8 then '8'
  else '9'

/-- Most-significant-first decimal digits of a natural number,
accumulator-based with a fuel bound for structural recursion. -/
def natDigitsAux : ℕ → ℕ → List Char → List Char
  | 0, _, acc => acc
  | fuel + 1, n, acc =>
    if n = 0 then acc
    else natDigitsAux fuel (n / 10) (digitChar (n % 10) :: acc)

/-- Decimal representation of a natural number. -/
def natDigits (n : ℕ) : List Char :=
  if n = 0 then ['0'] else natDigitsAux (n + 1) n []

/-- Zero-padded six-digit decimal representation (for the fractional part
of `%f`). -/
def pad6 (n : ℕ) : List Char :=
  List.replicate (6 - (natDigits n).length) '0' ++ natDigits n

/-- Model of `printf`-family `%f` formatting with the default precision of
six (used by the `snprintf` calls in NetServer.c lines 514, 529, 537,
551): sign, integer digits, a decimal point, six fractional digits.
`m` is `⌊|q| * 10 ^ 6 + 1 / 2⌋` computed on numerator and denominator, so
rounding is modelled as round-half-up on the exact rational; C rounds the
binary double under the current floating-point rounding mode.  The sign
test `q.num < 0` is exactly `q < 0` since denominators are positive. -/
def formatF (q : ℚ) : List Char :=
  let m : ℕ := (q.num.natAbs * 1000000 * 2 + q.den) / (2 * q.den)
  (if q.num < 0 then ['-'] else []) ++
    natDigits (m / 1000000) ++ ['.'] ++ pad6 (m % 1000000)

/-- Wind data as returned by `proteus_Weather_get` (wind angle and
magnitude, gust magnitude). -/
structure WindData where
  angle : ℚ
  mag : ℚ
  gust : ℚ

/-- Ocean data as returned by `proteus_Ocean_get` (current angle and
magnitude, sea-ice fraction). -/
structure OceanData where
  curAngle : ℚ
  curMag : ℚ
  ice : ℚ

/-- The external proteus query layer, abstracted: `proteus_Weather_get`
always produces data; `proteus_Ocean_get` and `proteus_Wave_get` return a
validity flag, modelled with `Option`. -/
structure QueryService where
  weather : ℚ → ℚ → WindData
  ocean : ℚ → ℚ → Option OceanData
  wave : ℚ → ℚ → Option ℚ

/-- Model of `populateWindResponse` (NetServer.c lines 509-520). -/
def populateWindResponse (qs : QueryService) (lat lon : ℚ) (gust : Bool) :
    List Char :=
  let wx := qs.weather lat lon
  (if gust then REQ_STR_GET_WIND_GUST else REQ_STR_GET_WIND) ++
    [','] ++ formatF lat ++ [','] ++ formatF lon ++
    [','] ++ formatF wx.angle ++
    [','] ++ formatF (if gust then wx.gust else wx.mag) ++ ['\n']

/-- Model of `populateOceanResponse` (NetServer.c lines 522-544): when the
query service reports no data, numeric fields are the
`INVALID_DOUBLE_VALUE` sentinel. -/
def populateOceanResponse (qs : QueryService) (lat lon : ℚ) (seaIce : Bool) :
    List Char :=
  match qs.ocean lat lon with
  | some od =>
    if seaIce then
      REQ_STR_GET_SEA_ICE ++ [','] ++ formatF lat ++ [','] ++ formatF lon ++
        [','] ++ formatF od.ice ++ ['\n']
    else
      REQ_STR_GET_OCEAN_CURRENT ++ [','] ++ formatF lat ++ [','] ++
        formatF lon ++ [','] ++ formatF od.curAngle ++
        [','] ++ formatF od.curMag ++ ['\n']
  | none =>
    if seaIce then
      REQ_STR_GET_SEA_ICE ++ [','] ++ formatF lat ++ [','] ++ formatF lon ++
        [','] ++ formatF INVALID_DOUBLE_VALUE ++ ['\n']
    else
      REQ_STR_GET_OCEAN_CURRENT ++ [','] ++ formatF lat ++ [','] ++
        formatF lon ++ [','] ++ formatF INVALID_DOUBLE_VALUE ++
        [','] ++ formatF INVALID_DOUBLE_VALUE ++ ['\n']

/-- Model of `populateWaveResponse` (NetServer.c lines 546-556). -/
def populateWaveResponse (qs : QueryService) (lat lon : ℚ) : List Char :=
  match qs.wave lat lon with
  | some h =>
    REQ_STR_GET_WAVE_HEIGHT ++ [','] ++ formatF lat ++ [','] ++ formatF lon ++
      [','] ++ formatF h ++ ['\n']
  | none =>
    REQ_STR_GET_WAVE_HEIGHT ++ [','] ++ formatF lat ++ [','] ++ formatF lon ++
      [','] ++ formatF INVALID_DOUBLE_VALUE ++ ['\n']

/-- Response dispatch on the request type: the `switch` at NetServer.c
lines 395-414 (its `default` label jumps to the failure path). -/
def buildResponse (qs : QueryService) (rt : ReqType) (lat lon : ℚ) :
    Option (List Char) :=
  match rt with
  | ReqType.getWind => some (populateWindResponse qs lat lon false)
  | ReqType.getWindGust => some (populateWindResponse qs lat lon true)
  | ReqType.getOceanCurrent => some (populateOceanResponse qs lat lon false)
  | ReqType.getSeaIce => some (populateOceanResponse qs lat lon true)
  | ReqType.getWaveHeight => some (populateWaveResponse qs lat lon)
  | ReqType.invalid => none

/-- Model of `handleMessage` (NetServer.c lines 336-447) up to I/O:
`some response` when the request parses, validates and a response line is
produced (the C function then writes it fully and returns 0); `none` on
the failure path (the C function writes the fixed line `"error\n"` and
returns -1).  All five request types expect two `double` arguments
(`REQ_VALS_LAT_LON`); tokens beyond the expected arguments are never
requested from `strtok_r` and are ignored. -/
def handleMessage (qs : QueryService) (reqStr : List Char) :
    Option (List Char) :=
  match strtokAll reqStr with
  | [] => none
  | kw :: rest =>
    let rt := getReqType kw
    if rt = ReqType.invalid then none
    else
      match rest with
      | t1 :: t2 :: _ =>
        let lat := strtod t1
        let lon := strtod t2
        if areValuesValidForReqType rt lat lon then buildResponse qs rt lat lon
        else none
      | _ => none

/-- The fixed failure response line (NetServer.c line 441). -/
def errorLine : List Char := "error\n".toList

/-- Bytes written to the client for one dispatched line, together with
whether `handleMessage` returned 0.  On the failure path the error line is
written but the return value is still -1 (NetServer.c lines 440-446). -/
def respond (qs : QueryService) (line : List Char) : List Char × Bool :=
  match handleMessage qs line with
  | some r => (r, true)
  | none => (errorLine, false)

/-- Number of comma-separated fields of a line: one more than the number
of comma bytes. -/
def fieldCount (l : List Char) : ℕ := l.count ',' + 1

/-- Canonical keyword echoed in the response of each request type. -/
def reqKeyword : ReqType → List Char
  | ReqType.invalid => []
  | ReqType.getWind => REQ_STR_GET_WIND
  | ReqType.getWindGust => REQ_STR_GET_WIND_GUST
  | ReqType.getOceanCurrent => REQ_STR_GET_OCEAN_CURRENT
  | ReqType.getSeaIce => REQ_STR_GET_SEA_ICE
  | ReqType.getWaveHeight => REQ_STR_GET_WAVE_HEIGHT

/-- Comma-separated field count of each command's response line. -/
def reqArity : ReqType → ℕ
  | ReqType.invalid => 0
  | ReqType.getWind => 5
  | ReqType.getWindGust => 5
  | ReqType.getOceanCurrent => 5
  | ReqType.getSeaIce => 4
  | ReqType.getWaveHeight => 4

/-- Model of the newline scan (NetServer.c lines 229-240): walk the valid
buffered bytes from the front, stopping at a zero byte or at the end of
the valid bytes; report the 1-indexed position of the first newline, if
one is reached.  (The C loop may additionally test one stale byte past the
valid region before its bound check; that read never changes the
outcome.) -/
def findNewline : List Char → Option ℕ
  | [] => none
  | c :: cs =>
    if c = Char.ofNat 0 then none
    else if c = '\n' then some 1
    else (findNewline cs).map (· + 1)

/-- How one connection's request loop ended: `tooLong` is the oversized
message abort (NetServer.c lines 187-194, incrementing the
`data_too_long` counter once), `msgFail` is the break after `handleMessage`
returned nonzero (lines 265-271, incrementing `message_fail`), and
`eofEnd` covers the end-of-stream exits (lines 247-251 and 277-281).  In
every case the connection is then closed exactly once (line 284). -/
inductive Outcome
  | tooLong
  | msgFail
  | eofEnd
deriving DecidableEq

/-- State of one connection inside the request loop: `buffer` holds the
valid buffered bytes (the first `readyBytes` bytes of `buf`; stale bytes
past them never affect the loop), `frags` the bytes the client has sent
but the server has not yet read, split into the chunks successive `read`
calls will deliver, and `eos` whether a read has returned zero. -/
structure ConnState where
  buffer : List Char
  frags : List (List Char)
  eos : Bool
deriving DecidableEq

/-- Observable behaviour of one connection: the completed lines handed to
`handleMessage` in order, the response writes in order, and how the loop
ended. -/
structure RunResult where
  lines : List (List Char)
  written : List (List Char)
  out : Outcome
deriving DecidableEq

/-- One read attempt (NetServer.c lines 196-227): nothing is read after
end-of-stream; with no pending data `read` returns 0 and marks
end-of-stream; otherwise `read` delivers the next chunk, clipped to the
free buffer space `MSG_BUF_SIZE - readyBytes`, leaving any clipped-off
remainder pending.  Returns (bytes delivered, pending chunks after,
end-of-stream flag after).  The model attempts a read whenever one is
allowed: `select` reports readiness as soon as unread bytes exist. -/
def readStep (st : ConnState) : List Char × List (List Char) × Bool :=
  if st.eos then ([], st.frags, true)
  else
    match st.frags with
    | [] => ([], [], true)
    | f :: rest =>
      if f = [] then ([], rest, true)
      else
        let space := MSG_BUF_SIZE - st.buffer.length
        let d := f.take space
        let r := f.drop space
        (d, if r = [] then rest else r :: rest, false)

/-- Model of the per-connection request loop of `netServerThreadMain`
(NetServer.c lines 183-282), as fuel-bounded recursion (every iteration
strictly decreases `connMeasure`, so `connMeasure + 1` fuel always
suffices; see `runConnFuel_eq_processStream`).  Each iteration: abort if
the buffer is full (lines 187-194); otherwise attempt a read (lines
196-227), scan for a newline (lines 229-240), and either keep reading, end
at end-of-stream, or hand the completed line `buffer[0, i-1)` to
`handleMessage` (the newline overwritten with a terminator), compact the
buffer by dropping the first `i` bytes, and continue unless `handleMessage`
failed (break, lines 265-271) or end-of-stream with an empty buffer was
reached (lines 277-281). -/
def runConnFuel (qs : QueryService) : ℕ → ConnState → RunResult
  | 0, _ => ⟨[], [], Outcome.eofEnd⟩
  | fuel + 1, st =>
    if st.buffer.length = MSG_BUF_SIZE then ⟨[], [], Outcome.tooLong⟩
    else
      let rs := readStep st
      let buf2 := st.buffer ++ rs.1
      match findNewline buf2 with
      | none =>
        if rs.2.2 then ⟨[], [], Outcome.eofEnd⟩
        else runConnFuel qs fuel ⟨buf2, rs.2.1, rs.2.2⟩
      | some i =>
        let line := buf2.take (i - 1)
        let resp := respond qs line
        if resp.2 then
          let buf3 := buf2.drop i
          if rs.2.2 && buf3.isEmpty then ⟨[line], [resp.1], Outcome.eofEnd⟩
          else
            let res := runConnFuel qs fuel ⟨buf3, rs.2.1, rs.2.2⟩
            ⟨line :: res.lines, resp.1 :: res.written, res.out⟩
        else ⟨[line], [resp.1], Outcome.msgFail⟩

/-- Total number of pending bytes in a fragment list. -/
def fragBytes (frags : List (List Char)) : ℕ := (frags.map List.length).sum

/-- Termination measure of the request loop: every iteration either
consumes pending bytes, consumes a pending fragment, or drops a dispatched
line from the buffer. -/
def connMeasure (st : ConnState) : ℕ :=
  2 * fragBytes st.frags + st.frags.length + st.buffer.length

/-- Initial state of an accepted connection: `readyBytes` is reset to 0
(NetServer.c line 177), end-of-stream is clear (line 180), and the
client's bytes will arrive as the given chunks. -/
def initConnState (frags : List (List Char)) : ConnState := ⟨[], frags, false⟩

/-- Run one connection whose client delivers the given chunks, with enough
fuel for the loop to run to its natural end. -/
def runNet (qs : QueryService) (frags : List (List Char)) : RunResult :=
  runConnFuel qs (connMeasure (initConnState frags) + 1) (initConnState frags)

/-- Reference line-extraction on the whole delivered byte sequence,
ignoring how it is split into reads: scan the first `MSG_BUF_SIZE` bytes
for a newline (stopping at a zero byte); with none, the stream either
overflows the buffer or ends discarding the unterminated tail; with one at
position `i`, dispatch bytes [0, i-1) and continue after byte `i`. -/
def processAll (qs : QueryService) : ℕ → List Char → RunResult
  | 0, _ => ⟨[], [], Outcome.eofEnd⟩
  | fuel + 1, r =>
    match findNewline (r.take MSG_BUF_SIZE) with
    | none =>
      if MSG_BUF_SIZE ≤ r.length then ⟨[], [], Outcome.tooLong⟩
      else ⟨[], [], Outcome.eofEnd⟩
    | some i =>
      let line := r.take (i - 1)
      let resp := respond qs line
      if resp.2 then
        let res := processAll qs fuel (r.drop i)
        ⟨line :: res.lines, resp.1 :: res.written, res.out⟩
      else ⟨[line], [resp.1], Outcome.msgFail⟩

/-- Reference behaviour of one connection on a delivered byte sequence. -/
def processStream (qs : QueryService) (r : List Char) : RunResult :=
  processAll qs (r.length + 1) r

/-- A single-read delivery of a byte sequence: one chunk, or no read at
all when there are no bytes. -/
def singleDelivery (input : List Char) : List (List Char) :=
  if input = [] then [] else [input]

theorem findNewline_pos : ∀ {l : List Char} {i : ℕ}, findNewline l = some i →
    1 ≤ i ∧ i ≤ l.length := by
  intro l
  induction l with
  | nil => intro i h; simp [findNewline] at h
  | cons c cs ih =>
    intro i h
    rw [findNewline] at h
    by_cases h0 : c = Char.ofNat 0
    · simp [h0] at h
    · by_cases hn : c = '\n'
      · rw [if_neg h0, if_pos hn] at h
        simp only [Option.some.injEq] at h
        subst h
        simp
      · simp only [if_neg h0, if_neg hn, Option.map_eq_some'] at h
        obtain ⟨j, hj, hij⟩ := h
        have := ih hj
        simp only [List.length_cons]
        omega

theorem findNewline_append : ∀ {l : List Char} {i : ℕ} (t : List Char),
    findNewline l = some i → findNewline (l ++ t) = some i := by
  intro l
  induction l with
  | nil => intro i t h; simp [findNewline] at h
  | cons c cs ih =>
    intro i t h
    rw [findNewline] at h
    rw [List.cons_append, findNewline]
    by_cases h0 : c = Char.ofNat 0
    · simp [h0] at h
    · by_cases hn : c = '\n'
      · simpa [h0, hn] using h
      · simp only [if_neg h0, if_neg hn, Option.map_eq_some'] at h ⊢
        obtain ⟨j, hj, hij⟩ := h
        exact ⟨j, ih t hj, hij⟩

theorem findNewline_take : ∀ {l : List Char} {i n : ℕ},
    findNewline l = some i → i ≤ n → findNewline (l.take n) = some i := by
  intro l
  induction l with
  | nil => intro i n h; simp [findNewline] at h
  | cons c cs ih =>
    intro i n h hin
    have hpos := findNewline_pos h
    rw [findNewline] at h
    match n with
    | 0 => omega
    | m + 1 =>
      rw [List.take_succ_cons, findNewline]
      by_cases h0 : c = Char.ofNat 0
      · simp [h0] at h
      · by_cases hn : c = '\n'
        · simpa [h0, hn] using h
        · simp only [if_neg h0, if_neg hn, Option.map_eq_some'] at h ⊢
          obtain ⟨j, hj, hij⟩ := h
          exact ⟨j, ih hj (by omega), hij⟩

theorem findNewline_decomp : ∀ {l : List Char} {i : ℕ}, findNewline l = some i →
    l.take (i - 1) ++ '\n' :: l.drop i = l := by
  intro l
  induction l with
  | nil => intro i h; simp [findNewline] at h
  | cons c cs ih =>
    intro i h
    have hpos := findNewline_pos h
    rw [findNewline] at h
    by_cases h0 : c = Char.ofNat 0
    · simp [h0] at h
    · by_cases hn : c = '\n'
      · simp only [if_neg h0, if_pos hn, Option.some.injEq] at h
        subst h
        simp [hn]
      · simp only [if_neg h0, if_neg hn, Option.map_eq_some'] at h
        obtain ⟨j, hj, hij⟩ := h
        have hjpos := findNewline_pos hj
        subst hij
        have : j + 1 - 1 = (j - 1) + 1 := by omega
        rw [this, List.take_succ_cons, List.drop_succ_cons, List.cons_append,
          List.cons.injEq]
        exact ⟨rfl, ih hj⟩

theorem findNewline_nul : ∀ (pre rest : List Char), '\n' ∉ pre →
    findNewline (pre ++ Char.ofNat 0 :: rest) = none := by
  intro pre
  induction pre with
  | nil => intro rest _; simp [findNewline]
  | cons c cs ih =>
    intro rest hmem
    rw [List.cons_append, findNewline]
    by_cases h0 : c = Char.ofNat 0
    · simp [h0]
    · have hn : ¬ c = '\n' := fun hc => hmem (hc ▸ List.mem_cons_self c cs)
      simp [h0, hn, ih rest (fun hm => hmem (List.mem_cons_of_mem c hm))]

theorem processAll_congr (qs : QueryService) :
    ∀ (f₁ f₂ : ℕ) (r : List Char), r.length < f₁ → r.length < f₂ →
      processAll qs f₁ r = processAll qs f₂ r := by
  intro f₁
  induction f₁ with
  | zero => intro f₂ r h1 _; omega
  | succ n ih =>
    intro f₂ r h1 h2
    match f₂ with
    | 0 => omega
    | m + 1 =>
      rw [processAll, processAll]
      cases hfn : findNewline (r.take MSG_BUF_SIZE) with
      | none => rfl
      | some i =>
        have hpos := findNewline_pos hfn
        have hlen : i ≤ r.length := by
          have := hpos.2
          simp only [List.length_take] at this
          omega
        have hdrop : (r.drop i).length < n := by
          simp only [List.length_drop]
          omega
        have hdrop2 : (r.drop i).length < m := by
          simp only [List.length_drop]
          omega
        simp only [ih m (r.drop i) hdrop hdrop2]

theorem processStream_cons (qs : QueryService) {r : List Char} {i : ℕ}
    (hfn : findNewline (r.take MSG_BUF_SIZE) = some i)
    (hok : (respond qs (r.take (i - 1))).2 = true) :
    processStream qs r =
      ⟨r.take (i - 1) :: (processStream qs (r.drop i)).lines,
       (respond qs (r.take (i - 1))).1 :: (processStream qs (r.drop i)).written,
       (processStream qs (r.drop i)).out⟩ := by
  have hpos := findNewline_pos hfn
  have hlen : i ≤ r.length := by
    have := hpos.2
    simp only [List.length_take] at this
    omega
  rw [processStream, processAll]
  simp only [hfn, hok, if_true]
  have : processAll qs r.length (r.drop i) = processStream qs (r.drop i) := by
    apply processAll_congr
    · simp only [List.length_drop]; omega
    · simp only [List.length_drop]; omega
  rw [this]

theorem readStep_spec (st : ConnState) (hfr : ∀ f ∈ st.frags, f ≠ [])
    (heos : st.eos = true → st.frags = [])
    (hlt : st.buffer.length < MSG_BUF_SIZE) :
    (readStep st).1 ++ (readStep st).2.1.flatten = st.frags.flatten ∧
    (∀ f ∈ (readStep st).2.1, f ≠ []) ∧
    ((readStep st).2.2 = true → (readStep st).2.1 = []) ∧
    ((readStep st).2.2 = true → (readStep st).1 = []) ∧
    st.buffer.length + (readStep st).1.length ≤ MSG_BUF_SIZE ∧
    2 * fragBytes (readStep st).2.1 + (readStep st).2.1.length +
        (readStep st).1.length ≤
      2 * fragBytes st.frags + st.frags.length ∧
    ((readStep st).2.2 = false →
      2 * fragBytes (readStep st).2.1 + (readStep st).2.1.length +
          (readStep st).1.length <
        2 * fragBytes st.frags + st.frags.length) := by
  obtain ⟨buffer, frags, eos⟩ := st
  simp only at hfr heos hlt ⊢
  cases eos with
  | true =>
    have hnil := heos rfl
    subst hnil
    simp only [readStep, if_pos rfl]
    simp [fragBytes]
    omega
  | false =>
    cases frags with
    | nil =>
      simp only [readStep]
      simp [fragBytes]
      omega
    | cons f rest =>
      have hf : f ≠ [] := hfr f (by simp)
      have hrest : ∀ g ∈ rest, g ≠ [] := fun g hg => hfr g (by simp [hg])
      have hflen : 1 ≤ f.length := by
        cases f
        · exact absurd rfl hf
        · simp
      have hspace : 1 ≤ MSG_BUF_SIZE - buffer.length := by omega
      by_cases hdrop : f.drop (MSG_BUF_SIZE - buffer.length) = []
      · have hflen2 : f.length ≤ MSG_BUF_SIZE - buffer.length := by
          have := List.length_drop (MSG_BUF_SIZE - buffer.length) f
          rw [hdrop] at this
          simp only [List.length_nil] at this
          omega
        have htake : f.take (MSG_BUF_SIZE - buffer.length) = f :=
          List.take_of_length_le hflen2
        have hrs : readStep ⟨buffer, f :: rest, false⟩ = (f, rest, false) := by
          simp [readStep, hf, hdrop, htake]
        rw [hrs]
        refine ⟨by simp, hrest, by simp, by simp,
          by show buffer.length + f.length ≤ MSG_BUF_SIZE; omega, ?_, ?_⟩
        · simp only [fragBytes, List.map_cons, List.sum_cons, List.length_cons]
          omega
        · intro _
          simp only [fragBytes, List.map_cons, List.sum_cons, List.length_cons]
          omega
      · have hlt2 : MSG_BUF_SIZE - buffer.length < f.length := by
          by_contra hc
          exact hdrop (List.drop_eq_nil_of_le (by omega))
        have hrs : readStep ⟨buffer, f :: rest, false⟩ =
            (f.take (MSG_BUF_SIZE - buffer.length),
             f.drop (MSG_BUF_SIZE - buffer.length) :: rest, false) := by
          simp [readStep, hf, hdrop]
        rw [hrs]
        refine ⟨?_, ?_, by simp, by simp, ?_, ?_, ?_⟩
        · simp only [List.flatten_cons, ← List.append_assoc,
            List.take_append_drop]
        · intro g hg
          rcases List.mem_cons.mp hg with h | h
          · rw [h]; exact hdrop
          · exact hrest g h
        · simp only [List.length_take]
          omega
        · simp only [fragBytes, List.map_cons, List.sum_cons,
            List.length_cons, List.length_take, List.length_drop]
          omega
        · intro _
          simp only [fragBytes, List.map_cons, List.sum_cons,
            List.length_cons, List.length_take, List.length_drop]
          omega

/-- Invariants of the reachable states of the request loop: pending read
chunks are non-empty (an empty chunk would be an end-of-stream read), after
end-of-stream nothing is pending, the valid bytes fit the buffer, and a
full buffer holds no dispatchable newline (a dispatch always leaves free
space, so the loop can only re-enter its top with a full buffer after a
scan that found no newline). -/
def goodState (st : ConnState) : Prop :=
  (∀ f ∈ st.frags, f ≠ []) ∧ (st.eos = true → st.frags = []) ∧
    st.buffer.length ≤ MSG_BUF_SIZE ∧
    (st.buffer.length = MSG_BUF_SIZE → findNewline st.buffer = none)

theorem runConnFuel_eq_processStream (qs : QueryService) :
    ∀ (fuel : ℕ) (st : ConnState), goodState st → connMeasure st < fuel →
      runConnFuel qs fuel st =
        processStream qs (st.buffer ++ st.frags.flatten) := by
  intro fuel
  induction fuel with
  | zero => intro st _ hm; omega
  | succ n ih =>
    intro st hgs hm
    obtain ⟨hfr, heos, hle, hfull⟩ := hgs
    by_cases hbf : st.buffer.length = MSG_BUF_SIZE
    · have hnone := hfull hbf
      have htk : (st.buffer ++ st.frags.flatten).take MSG_BUF_SIZE =
          st.buffer := by
        rw [List.take_append_of_le_length (le_of_eq hbf.symm),
          List.take_of_length_le (le_of_eq hbf)]
      rw [runConnFuel, if_pos hbf, processStream, processAll]
      simp only [htk, hnone]
      rw [if_pos (by rw [List.length_append]; omega)]
    · have hblt : st.buffer.length < MSG_BUF_SIZE := lt_of_le_of_ne hle hbf
      obtain ⟨hjoin, hfr', heosfr, heosd, hcap, hms, hms'⟩ :=
        readStep_spec st hfr heos hblt
      have hreq : st.buffer ++ st.frags.flatten =
          (st.buffer ++ (readStep st).1) ++ (readStep st).2.1.flatten := by
        rw [List.append_assoc, hjoin]
      simp only [runConnFuel]
      rw [if_neg hbf]
      cases hfn : findNewline (st.buffer ++ (readStep st).1) with
      | none =>
        simp only [hfn]
        cases he2 : (readStep st).2.2 with
        | true =>
          simp only [he2, if_true]
          have hfr2 := heosfr he2
          have hd := heosd he2
          have hflat : st.frags.flatten = [] := by
            rw [← hjoin, hd, hfr2]
            simp
          rw [hd, List.append_nil] at hfn
          rw [hflat, List.append_nil, processStream, processAll]
          simp only [List.take_of_length_le hle, hfn]
          rw [if_neg (by omega)]
        | false =>
          simp only [he2, if_false, Bool.false_eq_true]
          have hgs2 : goodState ⟨st.buffer ++ (readStep st).1,
              (readStep st).2.1, false⟩ := by
            refine ⟨hfr', by simp, ?_, fun _ => hfn⟩
            simpa [List.length_append] using hcap
          have hmu : connMeasure ⟨st.buffer ++ (readStep st).1,
              (readStep st).2.1, false⟩ < n := by
            have h1 := hms' he2
            simp only [connMeasure] at hm ⊢
            simp only [List.length_append]
            omega
          rw [ih _ hgs2 hmu]
          rw [hreq]
      | some i =>
        simp only [hfn]
        have hpos := findNewline_pos hfn
        have hib : i ≤ (st.buffer ++ (readStep st).1).length := hpos.2
        have hiM : i ≤ MSG_BUF_SIZE := by
          rw [List.length_append] at hib
          omega
        have hib2 : i ≤ st.buffer.length + (readStep st).1.length := by
          have h := hib
          rw [List.length_append] at h
          exact h
        have hw : findNewline
            ((st.buffer ++ st.frags.flatten).take MSG_BUF_SIZE) = some i := by
          rw [hreq]
          exact findNewline_take (findNewline_append _ hfn) hiM
        have hline : (st.buffer ++ st.frags.flatten).take (i - 1) =
            (st.buffer ++ (readStep st).1).take (i - 1) := by
          rw [hreq]
          exact List.take_append_of_le_length (by omega)
        have hdropr : (st.buffer ++ st.frags.flatten).drop i =
            (st.buffer ++ (readStep st).1).drop i ++
              (readStep st).2.1.flatten := by
          rw [hreq]
          exact List.drop_append_of_le_length hib
        cases hok :
            (respond qs ((st.buffer ++ (readStep st).1).take (i - 1))).2 with
        | false =>
          simp only [hok, Bool.false_eq_true, if_false]
          rw [processStream, processAll]
          simp only [hw, hline, hok, Bool.false_eq_true, if_false]
        | true =>
          simp only [hok, if_true]
          have hok2 : (respond qs
              ((st.buffer ++ st.frags.flatten).take (i - 1))).2 = true := by
            rw [hline]
            exact hok
          cases hend : (readStep st).2.2 &&
              ((st.buffer ++ (readStep st).1).drop i).isEmpty with
          | true =>
            simp only [hend, if_true]
            rw [Bool.and_eq_true] at hend
            obtain ⟨he2, hemp⟩ := hend
            have hfr2 := heosfr he2
            have hdropnil : (st.buffer ++ (readStep st).1).drop i = [] :=
              List.isEmpty_iff.mp hemp
            have hrest : (st.buffer ++ st.frags.flatten).drop i = [] := by
              rw [hdropr, hdropnil, hfr2]
              simp
            rw [processStream_cons qs hw hok2, hrest, hline]
            rfl
          | false =>
            simp only [hend, Bool.false_eq_true, if_false]
            have h1024 : MSG_BUF_SIZE = 1024 := rfl
            have hgs2 : goodState ⟨(st.buffer ++ (readStep st).1).drop i,
                (readStep st).2.1, (readStep st).2.2⟩ := by
              refine ⟨hfr', heosfr, ?_, ?_⟩
              · simp only [List.length_drop, List.length_append]
                omega
              · intro hlen
                exfalso
                simp only [List.length_drop, List.length_append] at hlen
                omega
            have hmu : connMeasure ⟨(st.buffer ++ (readStep st).1).drop i,
                (readStep st).2.1, (readStep st).2.2⟩ < n := by
              simp only [connMeasure] at hm ⊢
              simp only [List.length_drop, List.length_append]
              omega
            rw [ih _ hgs2 hmu]
            rw [processStream_cons qs hw hok2, hdropr, hline]

/-- Behaviour of a fresh connection is the reference line extraction over
the concatenation of the delivered chunks, whatever the chunking. -/
theorem runNet_eq_processStream (qs : QueryService)
    (frags : List (List Char)) (hfr : ∀ f ∈ frags, f ≠ []) :
    runNet qs frags = processStream qs frags.flatten := by
  have hgs : goodState (initConnState frags) := by
    refine ⟨hfr, fun hc => by simp [initConnState] at hc, ?_, ?_⟩
    · show ([] : List Char).length ≤ MSG_BUF_SIZE
      simp
    · intro hc
      exact absurd (show (0 : ℕ) = MSG_BUF_SIZE from hc) (by decide)
  have h := runConnFuel_eq_processStream qs
    (connMeasure (initConnState frags) + 1) (initConnState frags) hgs
    (by omega)
  simpa [runNet, initConnState] using h

/-- A concrete query service used to instantiate theorems (the Query
Service stub). -/
def stubQS : QueryService where
  weather := fun _ _ => ⟨Rat.divInt 45 2, 10, 15⟩
  ocean := fun _ _ => some ⟨90, Rat.divInt 3 2, Rat.divInt 1 4⟩
  wave := fun _ _ => some (Rat.divInt 5 2)

/-- A query service with no ocean or wave data anywhere. -/
def noDataQS : QueryService where
  weather := fun _ _ => ⟨0, 0, 0⟩
  ocean := fun _ _ => none
  wave := fun _ _ => none

theorem digitChar_ne (d : ℕ) : digitChar d ≠ ',' ∧ digitChar d ≠ '\n' := by
  unfold digitChar
  split_ifs <;> exact ⟨by decide, by decide⟩

theorem natDigitsAux_ne : ∀ (fuel n : ℕ) (acc : List Char),
    (∀ c ∈ acc, c ≠ ',' ∧ c ≠ '\n') →
    ∀ c ∈ natDigitsAux fuel n acc, c ≠ ',' ∧ c ≠ '\n' := by
  intro fuel
  induction fuel with
  | zero => intro n acc hacc c hc; exact hacc c (by simpa [natDigitsAux] using hc)
  | succ m ih =>
    intro n acc hacc c hc
    rw [natDigitsAux] at hc
    by_cases h0 : n = 0
    · rw [if_pos h0] at hc
      exact hacc c hc
    · rw [if_neg h0] at hc
      refine ih _ _ ?_ c hc
      intro c2 hc2
      rcases List.mem_cons.mp hc2 with h | h
      · rw [h]; exact digitChar_ne _
      · exact hacc c2 h

theorem natDigits_ne (n : ℕ) : ∀ c ∈ natDigits n, c ≠ ',' ∧ c ≠ '\n' := by
  intro c hc
  rw [natDigits] at hc
  by_cases h0 : n = 0
  · rw [if_pos h0] at hc
    simp only [List.mem_singleton] at hc
    rw [hc]
    exact ⟨by decide, by decide⟩
  · rw [if_neg h0] at hc
    exact natDigitsAux_ne _ _ _ (by simp) c hc

theorem formatF_ne (q : ℚ) : ∀ c ∈ formatF q, c ≠ ',' ∧ c ≠ '\n' := by
  intro c hc
  rw [formatF] at hc
  simp only [List.append_assoc, List.mem_append] at hc
  rcases hc with h | h | h | h
  · by_cases hq : q.num < 0
    · rw [if_pos hq] at h
      simp only [List.mem_singleton] at h
      rw [h]
      exact ⟨by decide, by decide⟩
    · rw [if_neg hq] at h
      simp at h
  · exact natDigits_ne _ c h
  · simp only [List.mem_singleton] at h
    rw [h]
    exact ⟨by decide, by decide⟩
  · rw [pad6] at h
    simp only [List.mem_append] at h
    rcases h with h | h
    · rw [List.eq_of_mem_replicate h]
      exact ⟨by decide, by decide⟩
    · exact natDigits_ne _ c h

theorem formatF_count_comma (q : ℚ) : (formatF q).count ',' = 0 :=
  List.count_eq_zero.mpr fun h => (formatF_ne q ',' h).1 rfl

theorem formatF_count_newline (q : ℚ) : (formatF q).count '\n' = 0 :=
  List.count_eq_zero.mpr fun h => (formatF_ne q '\n' h).2 rfl

theorem getLast?_append_some (l m : List Char) (c : Char)
    (h : m.getLast? = some c) : (l ++ m).getLast? = some c := by
  cases m with
  | nil => simp at h
  | cons b bs => rw [List.getLast?_append_cons]; exact h

theorem getLast?_cons_some (a c : Char) (m : List Char)
    (h : m.getLast? = some c) : (a :: m).getLast? = some c := by
  have h2 := getLast?_append_some [a] m c h
  simpa using h2

theorem populateWindResponse_fields (qs : QueryService) (lat lon : ℚ)
    (gust : Bool) :
    fieldCount (populateWindResponse qs lat lon gust) = 5 ∧
    (populateWindResponse qs lat lon gust).count '\n' = 1 ∧
    (populateWindResponse qs lat lon gust).getLast? = some '\n' := by
  have hk1 : REQ_STR_GET_WIND.count ',' = 0 := by decide
  have hk2 : REQ_STR_GET_WIND_GUST.count ',' = 0 := by decide
  have hk3 : REQ_STR_GET_WIND.count '\n' = 0 := by decide
  have hk4 : REQ_STR_GET_WIND_GUST.count '\n' = 0 := by decide
  refine ⟨?_, ?_, ?_⟩
  · cases gust <;>
      simp [populateWindResponse, fieldCount, List.count_append,
        formatF_count_comma, hk1, hk2]
  · cases gust <;>
      simp [populateWindResponse, List.count_append,
        formatF_count_newline, hk3, hk4]
  · cases gust <;>
      simp only [populateWindResponse, if_true, if_false, Bool.false_eq_true,
        List.getLast?_concat]

theorem populateOceanResponse_fields (qs : QueryService) (lat lon : ℚ) :
    fieldCount (populateOceanResponse qs lat lon false) = 5 ∧
    fieldCount (populateOceanResponse qs lat lon true) = 4 ∧
    (populateOceanResponse qs lat lon false).count '\n' = 1 ∧
    (populateOceanResponse qs lat lon true).count '\n' = 1 ∧
    (populateOceanResponse qs lat lon false).getLast? = some '\n' ∧
    (populateOceanResponse qs lat lon true).getLast? = some '\n' := by
  have hk1 : REQ_STR_GET_OCEAN_CURRENT.count ',' = 0 := by decide
  have hk2 : REQ_STR_GET_SEA_ICE.count ',' = 0 := by decide
  have hk3 : REQ_STR_GET_OCEAN_CURRENT.count '\n' = 0 := by decide
  have hk4 : REQ_STR_GET_SEA_ICE.count '\n' = 0 := by decide
  refine ⟨?_, ?_, ?_, ?_, ?_, ?_⟩ <;> cases ho : qs.ocean lat lon <;>
      simp [populateOceanResponse, ho, fieldCount, List.count_append,
        formatF_count_comma, formatF_count_newline, hk1, hk2, hk3, hk4] <;>
    repeat
      first
      | rfl
      | apply getLast?_cons_some
      | apply getLast?_append_some

theorem populateWaveResponse_fields (qs : QueryService) (lat lon : ℚ) :
    fieldCount (populateWaveResponse qs lat lon) = 4 ∧
    (populateWaveResponse qs lat lon).count '\n' = 1 ∧
    (populateWaveResponse qs lat lon).getLast? = some '\n' := by
  have hk1 : REQ_STR_GET_WAVE_HEIGHT.count ',' = 0 := by decide
  have hk2 : REQ_STR_GET_WAVE_HEIGHT.count '\n' = 0 := by decide
  refine ⟨?_, ?_, ?_⟩ <;> cases hw : qs.wave lat lon <;>
      simp [populateWaveResponse, hw, fieldCount, List.count_append,
        formatF_count_comma, formatF_count_newline, hk1, hk2] <;>
    repeat
      first
      | rfl
      | apply getLast?_cons_some
      | apply getLast?_append_some

theorem findNewline_replicate (n : ℕ) :
    findNewline (List.replicate n 'a') = none := by
  induction n with
  | zero => rfl
  | succ m ih =>
    rw [List.replicate_succ, findNewline, if_neg (by decide),
      if_neg (by decide), ih]
    rfl

/-- C1 counterexample: on the pipelined input `"bogus,1,2\nwind,45,-63.5\n"`
the server writes only the error line and then terminates the connection
(`handleMessage` returns -1 even when the error line was written in full,
NetServer.c lines 440-446, and the request loop then breaks, lines
265-271): the well-formed second request, which on its own would be
answered, is never dispatched.  This refutes the claim that the framer
continues after an error response. -/
theorem errorResponseKeepsConnection_cex :
    runNet stubQS ["bogus,1,2\nwind,45,-63.5\n".toList] =
      ⟨["bogus,1,2".toList], [errorLine], Outcome.msgFail⟩ ∧
    handleMessage stubQS "wind,45,-63.5".toList =
      some "wind,45.000000,-63.500000,22.500000,10.000000\n".toList := by
  constructor <;> decide

/-- C1 (amended): a request line that fails parsing or validation is
answered with exactly the fixed line `"error\n"`, but `handleMessage`
still reports failure, so the framer terminates the connection: no
further line of the same connection is dispatched or answered. -/
theorem errorResponseThenConnectionCloses (qs : QueryService)
    (frags : List (List Char)) (hfr : ∀ f ∈ frags, f ≠ []) (i : ℕ)
    (hfn : findNewline (frags.flatten.take MSG_BUF_SIZE) = some i)
    (hbad : handleMessage qs (frags.flatten.take (i - 1)) = none) :
    runNet qs frags =
      ⟨[frags.flatten.take (i - 1)], [errorLine], Outcome.msgFail⟩ := by
  rw [runNet_eq_processStream qs frags hfr, processStream, processAll]
  simp only [hfn]
  have hresp : respond qs (frags.flatten.take (i - 1)) = (errorLine, false) := by
    simp only [respond, hbad]
  simp only [hresp]
  simp

/-- Witness for the amended C1 at a concrete invalid first request. -/
theorem errorResponseThenConnectionCloses_witness :
    runNet stubQS ["bogus,1,2\nx\n".toList] =
      ⟨[(["bogus,1,2\nx\n".toList] : List (List Char)).flatten.take (10 - 1)],
       [errorLine], Outcome.msgFail⟩ :=
  errorResponseThenConnectionCloses stubQS ["bogus,1,2\nx\n".toList]
    (by decide) 10 (by decide) (by decide)

/-- C2: byte accounting of the framer.  When the newline scan reports
1-indexed position `i`: `i` is within the valid bytes, the completed line
is bytes [0, i-1), the remaining bytes are [i, readyBytes), and
decomposing the buffer as line, newline, remainder loses and duplicates
nothing; the remainder's length is exactly `readyBytes - i`.  A read is
clipped to the free space, so the valid bytes never exceed the 1024-byte
capacity, and a fresh connection starts with zero valid bytes
(NetServer.c line 177). -/
theorem bufferByteAccounting :
    (∀ (b : List Char) (i : ℕ), findNewline b = some i →
      1 ≤ i ∧ i ≤ b.length ∧
      b.take (i - 1) ++ '\n' :: b.drop i = b ∧
      (b.drop i).length = b.length - i) ∧
    (∀ (buffer chunk : List Char), buffer.length ≤ MSG_BUF_SIZE →
      (buffer ++ chunk.take (MSG_BUF_SIZE - buffer.length)).length ≤
        MSG_BUF_SIZE) ∧
    ∀ frags, (initConnState frags).buffer = [] := by
  refine ⟨?_, ?_, fun _ => rfl⟩
  · intro b i h
    have hp := findNewline_pos h
    exact ⟨hp.1, hp.2, findNewline_decomp h, List.length_drop _ _⟩
  · intro buffer chunk h
    simp only [List.length_append, List.length_take]
    omega

/-- Witness for C2 on the buffer `"ab\ncd"` with the newline at position
3. -/
theorem bufferByteAccounting_witness :
    1 ≤ 3 ∧ 3 ≤ "ab\ncd".toList.length ∧
    "ab\ncd".toList.take (3 - 1) ++ '\n' :: "ab\ncd".toList.drop 3 =
      "ab\ncd".toList ∧
    ("ab\ncd".toList.drop 3).length = "ab\ncd".toList.length - 3 :=
  bufferByteAccounting.1 "ab\ncd".toList 3 (by decide)

/-- C3: fragmentation-independence.  Delivering a request byte sequence in
any chunking of non-empty partial reads produces exactly the same
dispatched lines, the same written responses and the same connection
outcome as delivering the whole sequence in a single read. -/
theorem fragmentationIndependence (qs : QueryService)
    (frags : List (List Char)) (hfr : ∀ f ∈ frags, f ≠ []) :
    runNet qs frags = runNet qs (singleDelivery frags.flatten) := by
  rw [runNet_eq_processStream qs frags hfr]
  by_cases h : frags.flatten = []
  · rw [h]
    rw [show singleDelivery ([] : List Char) = [] from rfl]
    rw [runNet_eq_processStream qs [] (by simp)]
    rfl
  · rw [show singleDelivery frags.flatten = [frags.flatten] from by
      rw [singleDelivery, if_neg h]]
    rw [runNet_eq_processStream qs [frags.flatten]
      (by intro f hf; rw [List.mem_singleton] at hf; rw [hf]; exact h)]
    rw [show ([frags.flatten] : List (List Char)).flatten = frags.flatten
      from by simp]

/-- Witness for C3: a request delivered in three fragments versus one. -/
theorem fragmentationIndependence_witness :
    runNet stubQS ["wi".toList, "nd,1".toList, ",2\n".toList] =
      runNet stubQS (singleDelivery
        (["wi".toList, "nd,1".toList, ",2\n".toList] :
          List (List Char)).flatten) :=
  fragmentationIndependence stubQS
    ["wi".toList, "nd,1".toList, ",2\n".toList] (by decide)

/-- C5: oversized-message handling.  From any request-loop state whose
1024-byte buffer is full with no newline found among the buffered bytes,
the next iteration aborts the connection at once: no line is dispatched,
no response bytes are emitted, and the loop ends with the oversized
outcome (the `data_too_long` counter increment at NetServer.c line 191),
after which the connection is closed exactly once (line 284). -/
theorem oversizedMessageAborts (qs : QueryService) (fuel : ℕ)
    (st : ConnState) (hfull : st.buffer.length = MSG_BUF_SIZE)
    (_hnl : findNewline st.buffer = none) :
    runConnFuel qs (fuel + 1) st = ⟨[], [], Outcome.tooLong⟩ := by
  rw [runConnFuel, if_pos hfull]

/-- Witness for C5: a full buffer of 1024 `'a'` bytes. -/
theorem oversizedMessageAborts_witness :
    runConnFuel stubQS (0 + 1)
        ⟨List.replicate 1024 'a', [], false⟩ =
      ⟨[], [], Outcome.tooLong⟩ :=
  oversizedMessageAborts stubQS 0 ⟨List.replicate 1024 'a', [], false⟩
    (by simp only [List.length_replicate]; rfl) (findNewline_replicate 1024)

/-- C6 counterexample: keyword matching is not an exact match against the
five keywords.  The token `"w"` is none of them, yet `getReqType` maps it
to the wind command (the `strncmp(keyword, s, strlen(s))` comparison at
NetServer.c line 451 accepts any prefix of a keyword), and the request
`"w,1,2"` is answered with a normal wind data line instead of
`"error\n"`. -/
theorem keywordExactMatch_cex :
    getReqType "w".toList = ReqType.getWind ∧
    "w".toList ≠ REQ_STR_GET_WIND ∧
    "w".toList ≠ REQ_STR_GET_WIND_GUST ∧
    "w".toList ≠ REQ_STR_GET_OCEAN_CURRENT ∧
    "w".toList ≠ REQ_STR_GET_SEA_ICE ∧
    "w".toList ≠ REQ_STR_GET_WAVE_HEIGHT ∧
    handleMessage stubQS "w,1,2".toList =
      some "wind,1.000000,2.000000,22.500000,10.000000\n".toList := by
  refine ⟨?_, ?_, ?_, ?_, ?_, ?_, ?_⟩ <;> decide

/-- C6 (amended): the first comma-separated token is matched
case-sensitively against the keywords in the source order wind, wind_gust,
ocean_current, sea_ice, wave_height, mapping the token to the first
keyword of which it is a (possibly empty) prefix; each exact keyword maps
to its own command, and a token that is a prefix of none of the five
(such as `"bogus"`) yields Invalid, so `"bogus,1,2"` is answered with
`"error\n"`. -/
theorem keywordPrefixMatching :
    (∀ s : List Char, getReqType s = ReqType.invalid ↔
      (¬ s.isPrefixOf REQ_STR_GET_WIND ∧
       ¬ s.isPrefixOf REQ_STR_GET_WIND_GUST ∧
       ¬ s.isPrefixOf REQ_STR_GET_OCEAN_CURRENT ∧
       ¬ s.isPrefixOf REQ_STR_GET_SEA_ICE ∧
       ¬ s.isPrefixOf REQ_STR_GET_WAVE_HEIGHT)) ∧
    getReqType REQ_STR_GET_WIND = ReqType.getWind ∧
    getReqType REQ_STR_GET_WIND_GUST = ReqType.getWindGust ∧
    getReqType REQ_STR_GET_OCEAN_CURRENT = ReqType.getOceanCurrent ∧
    getReqType REQ_STR_GET_SEA_ICE = ReqType.getSeaIce ∧
    getReqType REQ_STR_GET_WAVE_HEIGHT = ReqType.getWaveHeight ∧
    (∀ qs : QueryService,
      handleMessage qs "bogus,1,2".toList = none ∧
      respond qs "bogus,1,2".toList = (errorLine, false)) := by
  refine ⟨?_, by decide, by decide, by decide, by decide, by decide,
    fun qs => ⟨rfl, rfl⟩⟩
  intro s
  simp only [getReqType]
  split_ifs <;> simp [*]

/-- Witness for the amended C6 at the token `"bogus"`. -/
theorem keywordPrefixMatching_witness :
    getReqType "bogus".toList = ReqType.invalid :=
  (keywordPrefixMatching.1 "bogus".toList).mpr (by decide)

/-- C4: a well-formed request (recognized keyword and two argument tokens
whose parsed latitude lies in [-90, 90] and longitude in [-180, 180])
yields exactly one newline-terminated response line: `handleMessage`
succeeds, the response starts with the command keyword and the two input
coordinates formatted with `%f`, its comma-separated field count is the
command's fixed arity (5 for wind, wind_gust and ocean_current, 4 for
sea_ice and wave_height), and it contains exactly one newline, at the
end. -/
theorem wellFormedRequestResponse (qs : QueryService)
    (reqStr kw t1 t2 : List Char) (rest : List (List Char))
    (htok : strtokAll reqStr = kw :: t1 :: t2 :: rest)
    (hty : ¬ getReqType kw = ReqType.invalid)
    (h1 : -90 ≤ strtod t1) (h2 : strtod t1 ≤ 90)
    (h3 : -180 ≤ strtod t2) (h4 : strtod t2 ≤ 180) :
    (handleMessage qs reqStr).isSome = true ∧
    (reqKeyword (getReqType kw) ++ [','] ++ formatF (strtod t1) ++ [','] ++
        formatF (strtod t2)) <+: (handleMessage qs reqStr).getD [] ∧
    fieldCount ((handleMessage qs reqStr).getD []) =
      reqArity (getReqType kw) ∧
    ((handleMessage qs reqStr).getD []).count '\n' = 1 ∧
    ((handleMessage qs reqStr).getD []).getLast? = some '\n' := by
  have hval : areValuesValidForReqType (getReqType kw) (strtod t1)
      (strtod t2) = true := by
    cases hrt : getReqType kw
    case invalid => exact absurd hrt hty
    all_goals simp [areValuesValidForReqType, h1, h2, h3, h4]
  have hmsg : handleMessage qs reqStr =
      buildResponse qs (getReqType kw) (strtod t1) (strtod t2) := by
    simp only [handleMessage, htok]
    rw [if_neg hty, if_pos hval]
  rw [hmsg]
  cases hrt : getReqType kw
  case invalid => exact absurd hrt hty
  case getWind =>
    simp only [buildResponse, reqKeyword, reqArity, Option.getD_some,
      Option.isSome_some]
    obtain ⟨hf, hn, hl⟩ :=
      populateWindResponse_fields qs (strtod t1) (strtod t2) false
    exact ⟨by trivial,
      ⟨[','] ++ formatF (qs.weather (strtod t1) (strtod t2)).angle ++ [','] ++
        formatF (qs.weather (strtod t1) (strtod t2)).mag ++ ['\n'],
       by simp [populateWindResponse, List.append_assoc]⟩, hf, hn, hl⟩
  case getWindGust =>
    simp only [buildResponse, reqKeyword, reqArity, Option.getD_some,
      Option.isSome_some]
    obtain ⟨hf, hn, hl⟩ :=
      populateWindResponse_fields qs (strtod t1) (strtod t2) true
    exact ⟨by trivial,
      ⟨[','] ++ formatF (qs.weather (strtod t1) (strtod t2)).angle ++ [','] ++
        formatF (qs.weather (strtod t1) (strtod t2)).gust ++ ['\n'],
       by simp [populateWindResponse, List.append_assoc]⟩, hf, hn, hl⟩
  case getOceanCurrent =>
    simp only [buildResponse, reqKeyword, reqArity, Option.getD_some,
      Option.isSome_some]
    obtain ⟨hf5, hf4, hn5, hn4, hl5, hl4⟩ :=
      populateOceanResponse_fields qs (strtod t1) (strtod t2)
    refine ⟨by trivial, ?_, hf5, hn5, hl5⟩
    cases ho : qs.ocean (strtod t1) (strtod t2) with
    | some od =>
      exact ⟨[','] ++ formatF od.curAngle ++ [','] ++ formatF od.curMag ++
        ['\n'], by simp [populateOceanResponse, ho, List.append_assoc]⟩
    | none =>
      exact ⟨[','] ++ formatF INVALID_DOUBLE_VALUE ++ [','] ++
        formatF INVALID_DOUBLE_VALUE ++ ['\n'],
        by simp [populateOceanResponse, ho, List.append_assoc]⟩
  case getSeaIce =>
    simp only [buildResponse, reqKeyword, reqArity, Option.getD_some,
      Option.isSome_some]
    obtain ⟨hf5, hf4, hn5, hn4, hl5, hl4⟩ :=
      populateOceanResponse_fields qs (strtod t1) (strtod t2)
    refine ⟨by trivial, ?_, hf4, hn4, hl4⟩
    cases ho : qs.ocean (strtod t1) (strtod t2) with
    | some od =>
      exact ⟨[','] ++ formatF od.ice ++ ['\n'],
        by simp [populateOceanResponse, ho, List.append_assoc]⟩
    | none =>
      exact ⟨[','] ++ formatF INVALID_DOUBLE_VALUE ++ ['\n'],
        by simp [populateOceanResponse, ho, List.append_assoc]⟩
  case getWaveHeight =>
    simp only [buildResponse, reqKeyword, reqArity, Option.getD_some,
      Option.isSome_some]
    obtain ⟨hf, hn, hl⟩ :=
      populateWaveResponse_fields qs (strtod t1) (strtod t2)
    refine ⟨by trivial, ?_, hf, hn, hl⟩
    cases hwv : qs.wave (strtod t1) (strtod t2) with
    | some h =>
      exact ⟨[','] ++ formatF h ++ ['\n'],
        by simp [populateWaveResponse, hwv, List.append_assoc]⟩
    | none =>
      exact ⟨[','] ++ formatF INVALID_DOUBLE_VALUE ++ ['\n'],
        by simp [populateWaveResponse, hwv, List.append_assoc]⟩

/-- Witness for C4 on the request `"wind,45.0,-63.5"`. -/
theorem wellFormedRequestResponse_witness :
    (handleMessage stubQS "wind,45.0,-63.5".toList).isSome = true ∧
    (reqKeyword (getReqType "wind".toList) ++ [','] ++
        formatF (strtod "45.0".toList) ++ [','] ++
        formatF (strtod "-63.5".toList)) <+:
      (handleMessage stubQS "wind,45.0,-63.5".toList).getD [] ∧
    fieldCount ((handleMessage stubQS "wind,45.0,-63.5".toList).getD []) =
      reqArity (getReqType "wind".toList) ∧
    ((handleMessage stubQS "wind,45.0,-63.5".toList).getD []).count '\n' =
      1 ∧
    ((handleMessage stubQS "wind,45.0,-63.5".toList).getD []).getLast? =
      some '\n' :=
  wellFormedRequestResponse stubQS "wind,45.0,-63.5".toList "wind".toList
    "45.0".toList "-63.5".toList [] (by decide) (by decide) (by decide)
    (by decide) (by decide) (by decide)

/-- C7: when the query service reports no data for the requested position,
the numeric result fields of the ocean_current, sea_ice and wave_height
responses are the fixed sentinel -999.0 (`INVALID_DOUBLE_VALUE`) rather
than omitted, and the comma-separated field count of each command's
response is the same whether or not data was available (5, 4 and 4). -/
theorem missingDataSentinel (qs : QueryService) (lat lon : ℚ)
    (ho : qs.ocean lat lon = none) (hw : qs.wave lat lon = none) :
    populateOceanResponse qs lat lon false =
      REQ_STR_GET_OCEAN_CURRENT ++ [','] ++ formatF lat ++ [','] ++
        formatF lon ++ [','] ++ formatF INVALID_DOUBLE_VALUE ++ [','] ++
        formatF INVALID_DOUBLE_VALUE ++ ['\n'] ∧
    populateOceanResponse qs lat lon true =
      REQ_STR_GET_SEA_ICE ++ [','] ++ formatF lat ++ [','] ++ formatF lon ++
        [','] ++ formatF INVALID_DOUBLE_VALUE ++ ['\n'] ∧
    populateWaveResponse qs lat lon =
      REQ_STR_GET_WAVE_HEIGHT ++ [','] ++ formatF lat ++ [','] ++
        formatF lon ++ [','] ++ formatF INVALID_DOUBLE_VALUE ++ ['\n'] ∧
    (∀ (qs2 : QueryService) (a b : ℚ),
      fieldCount (populateOceanResponse qs2 a b false) = 5 ∧
      fieldCount (populateOceanResponse qs2 a b true) = 4 ∧
      fieldCount (populateWaveResponse qs2 a b) = 4) := by
  refine ⟨?_, ?_, ?_, fun qs2 a b =>
    ⟨(populateOceanResponse_fields qs2 a b).1,
     (populateOceanResponse_fields qs2 a b).2.1,
     (populateWaveResponse_fields qs2 a b).1⟩⟩
  · simp [populateOceanResponse, ho]
  · simp [populateOceanResponse, ho]
  · simp [populateWaveResponse, hw]

/-- Witness for C7 with a query service that has no data anywhere. -/
theorem missingDataSentinel_witness :
    populateOceanResponse noDataQS 10 20 false =
      REQ_STR_GET_OCEAN_CURRENT ++ [','] ++ formatF 10 ++ [','] ++
        formatF 20 ++ [','] ++ formatF INVALID_DOUBLE_VALUE ++ [','] ++
        formatF INVALID_DOUBLE_VALUE ++ ['\n'] :=
  (missingDataSentinel noDataQS 10 20 rfl rfl).1

/-- C8: requests on one connection are processed strictly in arrival
order.  The response writes of a run are exactly the per-line responses
of the dispatched lines, in the same order (each response is modelled as
written in full before the next line is parsed, as the write-retry loop
at NetServer.c lines 419-436 does); in particular the two pipelined
requests delivered in one read as `"wind,10,20\nwave_height,-5,30\n"` are
answered in order with two separate response lines. -/
theorem orderedPipelinedResponses :
    (∀ (qs : QueryService) (fuel : ℕ) (st : ConnState),
      (runConnFuel qs fuel st).written =
        (runConnFuel qs fuel st).lines.map (fun l => (respond qs l).1)) ∧
    runNet stubQS ["wind,10,20\nwave_height,-5,30\n".toList] =
      ⟨["wind,10,20".toList, "wave_height,-5,30".toList],
       ["wind,10.000000,20.000000,22.500000,10.000000\n".toList,
        "wave_height,-5.000000,30.000000,2.500000\n".toList],
       Outcome.eofEnd⟩ := by
  constructor
  · intro qs fuel
    induction fuel with
    | zero => intro st; rfl
    | succ n ih =>
      intro st
      rw [runConnFuel]
      by_cases hbf : st.buffer.length = MSG_BUF_SIZE
      · rw [if_pos hbf]
        rfl
      · rw [if_neg hbf]
        cases hfn : findNewline (st.buffer ++ (readStep st).1) with
        | none =>
          simp only [hfn]
          cases he2 : (readStep st).2.2 with
          | true => simp only [he2, if_true, List.map_nil]
          | false =>
            simp only [he2, Bool.false_eq_true, if_false]
            exact ih _
        | some i =>
          simp only [hfn]
          cases hok :
              (respond qs ((st.buffer ++ (readStep st).1).take (i - 1))).2 with
          | false => simp only [hok, Bool.false_eq_true, if_false, List.map]
          | true =>
            simp only [hok, if_true]
            cases hend : (readStep st).2.2 &&
                ((st.buffer ++ (readStep st).1).drop i).isEmpty with
            | true => simp only [hend, if_true, List.map]
            | false =>
              simp only [hend, Bool.false_eq_true, if_false, List.map]
              rw [ih _]
  · decide

/-- C9: lenient numeric parsing.  A token without any digit parses as
zero under the modelled `strtod`, so the request `"wind,abc,def"` is
treated as position (0, 0), passes range validation, and is answered with
a normal wind data response rather than an error. -/
theorem lenientNumericParsing :
    (∀ t : List Char, (∀ c ∈ t, c.isDigit = false) → strtod t = 0) ∧
    strtod "abc".toList = 0 ∧ strtod "def".toList = 0 ∧
    areValuesValidForReqType ReqType.getWind 0 0 = true ∧
    (∀ qs : QueryService,
      handleMessage qs "wind,abc,def".toList =
        some (populateWindResponse qs 0 0 false)) := by
  have hscan : ∀ (l : List Char), (∀ c ∈ l, c.isDigit = false) →
      scanDigits l 0 0 = (0, 0, l) := by
    intro l h
    cases l with
    | nil => rfl
    | cons c cs =>
      rw [scanDigits, if_neg]
      simp [h c (List.mem_cons_self c cs)]
  refine ⟨?_, by decide, by decide, by decide, fun qs => rfl⟩
  intro t ht
  have ht1 : ∀ c ∈ t.dropWhile isSpaceChar, c.isDigit = false :=
    fun c hc => ht c ((List.dropWhile_sublist _).subset hc)
  have hstrip : ∀ c ∈ (stripSign (t.dropWhile isSpaceChar)).2,
      c.isDigit = false := by
    intro c hc
    apply ht1
    cases hd : t.dropWhile isSpaceChar with
    | nil => rw [hd] at hc; simp [stripSign] at hc
    | cons b r =>
      rw [hd] at hc
      rw [stripSign] at hc
      split_ifs at hc with hb1 hb2
      · exact List.mem_cons_of_mem b hc
      · exact List.mem_cons_of_mem b hc
      · exact hc
  simp only [strtod, hscan _ hstrip]
  split
  · rfl
  · rename_i heq
    exfalso
    apply heq
    split
    · rename_i r heq2
      have hr : ∀ c ∈ r, c.isDigit = false := fun c hc =>
        hstrip c (by rw [heq2]; exact List.mem_cons_of_mem _ hc)
      rw [hscan r hr]
      rfl
    · rfl

/-- Witness for C9 at the digit-free token `"xyz"`. -/
theorem lenientNumericParsing_witness : strtod "xyz".toList = 0 :=
  lenientNumericParsing.1 "xyz".toList (by decide)

/-- C10: the newline scan stops at the first zero byte among the valid
buffered bytes.  If the buffer holds a NUL byte before any newline, the
scan finds no newline, so that line is never completed and never handed
to the codec: from any such state the run dispatches no line, writes no
response, and the connection ends either by the oversized abort (once the
buffer fills) or at end-of-stream.  (A peer that stays silent without
closing would make the loop spin without progress; the model reads
whenever data is pending, so that case corresponds to taking no step.) -/
theorem nulByteBlocksDispatch (qs : QueryService) :
    ∀ (fuel : ℕ) (st : ConnState) (pre rest : List Char),
      st.buffer = pre ++ Char.ofNat 0 :: rest → '\n' ∉ pre →
      findNewline st.buffer = none ∧
      (runConnFuel qs fuel st).lines = [] ∧
      (runConnFuel qs fuel st).written = [] ∧
      ((runConnFuel qs fuel st).out = Outcome.tooLong ∨
        (runConnFuel qs fuel st).out = Outcome.eofEnd) := by
  intro fuel
  induction fuel with
  | zero =>
    intro st pre rest hb hpre
    exact ⟨by rw [hb]; exact findNewline_nul pre rest hpre, rfl, rfl,
      Or.inr rfl⟩
  | succ n ih =>
    intro st pre rest hb hpre
    have hnl : findNewline st.buffer = none := by
      rw [hb]; exact findNewline_nul pre rest hpre
    by_cases hbf : st.buffer.length = MSG_BUF_SIZE
    · have hrr : runConnFuel qs (n + 1) st = ⟨[], [], Outcome.tooLong⟩ := by
        rw [runConnFuel, if_pos hbf]
      exact ⟨hnl, by rw [hrr], by rw [hrr], Or.inl (by rw [hrr])⟩
    · have hb2 : st.buffer ++ (readStep st).1 =
          pre ++ Char.ofNat 0 :: (rest ++ (readStep st).1) := by
        rw [hb]
        simp [List.append_assoc]
      have hfn2 : findNewline (st.buffer ++ (readStep st).1) = none := by
        rw [hb2]; exact findNewline_nul _ _ hpre
      cases he2 : (readStep st).2.2 with
      | true =>
        have hrr : runConnFuel qs (n + 1) st = ⟨[], [], Outcome.eofEnd⟩ := by
          simp only [runConnFuel]
          rw [if_neg hbf]
          simp only [hfn2, he2, if_true]
        exact ⟨hnl, by rw [hrr], by rw [hrr], Or.inr (by rw [hrr])⟩
      | false =>
        have hrr : runConnFuel qs (n + 1) st =
            runConnFuel qs n ⟨st.buffer ++ (readStep st).1,
              (readStep st).2.1, false⟩ := by
          simp only [runConnFuel]
          rw [if_neg hbf]
          simp only [hfn2, he2, Bool.false_eq_true, if_false]
        have hrec := ih ⟨st.buffer ++ (readStep st).1, (readStep st).2.1,
          false⟩ pre (rest ++ (readStep st).1) hb2 hpre
        exact ⟨hnl, by rw [hrr]; exact hrec.2.1, by rw [hrr]; exact hrec.2.2.1,
          by rw [hrr]; exact hrec.2.2.2⟩

/-- Witness for C10 on a buffer holding `"ab\x00cd\n"`: the NUL hides the
later newline. -/
theorem nulByteBlocksDispatch_witness :
    findNewline (⟨"ab\x00cd\n".toList, [], false⟩ : ConnState).buffer =
      none ∧
    (runConnFuel stubQS 3 ⟨"ab\x00cd\n".toList, [], false⟩).lines = [] ∧
    (runConnFuel stubQS 3 ⟨"ab\x00cd\n".toList, [], false⟩).written = [] ∧
    ((runConnFuel stubQS 3 ⟨"ab\x00cd\n".toList, [], false⟩).out =
        Outcome.tooLong ∨
      (runConnFuel stubQS 3 ⟨"ab\x00cd\n".toList, [], false⟩).out =
        Outcome.eofEnd) :=
  nulByteBlocksDispatch stubQS 3 ⟨"ab\x00cd\n".toList, [], false⟩
    "ab".toList "cd\n".toList (by decide) (by decide)

end NetServer

section Examples

open NetServer

example : getReqType "wind".toList = ReqType.getWind := by decide
example : getReqType "bogus".toList = ReqType.invalid := by decide
example : getReqType "w".toList = ReqType.getWind := by decide
example : getReqType "wave".toList = ReqType.getWaveHeight := by decide
example : strtod "45.0".toList = 45 := by decide
example : strtod "-63.5".toList = Rat.divInt (-635) 10 := by decide
example : strtod "abc".toList = 0 := by decide
example : strtod "1e2".toList = 100 := by decide
example : strtokAll "wind,45.0,-63.5".toList =
    ["wind".toList, "45.0".toList, "-63.5".toList] := by decide
example : formatF 45 = "45.000000".toList := by decide
example : formatF (Rat.divInt (-635) 10) = "-63.500000".toList := by decide

example :
    handleMessage stubQS "wind,45.0,-63.5".toList =
      some "wind,45.000000,-63.500000,22.500000,10.000000\n".toList := by
  decide

example : handleMessage stubQS "bogus,1,2".toList = none := by decide
example : handleMessage stubQS "sea_ice,91.0,0.0".toList = none := by decide
example : handleMessage stubQS "wind,45.0".toList = none := by decide
example :
    handleMessage stubQS "wind,abc,def".toList =
      some "wind,0.000000,0.000000,22.500000,10.000000\n".toList := by decide

example :
    runNet stubQS ["wind,10,20\nwave_height,-5,30\n".toList] =
      ⟨["wind,10,20".toList, "wave_height,-5,30".toList],
       ["wind,10.000000,20.000000,22.500000,10.000000\n".toList,
        "wave_height,-5.000000,30.000000,2.500000\n".toList],
       Outcome.eofEnd⟩ := by decide

example :
    runNet stubQS ["bogus,1,2\nwind,45,-63.5\n".toList] =
      ⟨["bogus,1,2".toList], [errorLine], Outcome.msgFail⟩ := by decide

example :
    runNet stubQS ["wi".toList, "nd,1".toList, ",2\n".toList] =
      runNet stubQS ["wind,1,2\n".toList] := by decide

example :
    processStream stubQS "wind,10,20\nwave_height,-5,30\n".toList =
      runNet stubQS ["wind,10,20\nwave_height,-5,30\n".toList] := by decide

end Examples
